import Mathlib

/-!
Shallow embedding of the 2redbook content scraper (`redbook_scraper.py`,
`redbook_api.py`, `api/index.py`, `test_api.py`).  Python strings are
modelled as Lean `String` / `List Char`; the matching behaviour of
`re.findall` on the fixed pattern of the source, the BeautifulSoup queries
the code performs, and the filesystem and network effects are embedded as
executable functions, with network results passed in as explicit oracles.
-/

namespace Redbook

/-! ## Link resolver (`RedbookScraper.extract_url`)

The source pattern is `http://xhslink\.com/[a-zA-Z0-9/]+\b` and the code
returns `urls[0] if urls else None` for `urls = re.findall(pattern, text)`,
i.e. the leftmost match, taking the `+` quantifier greedily and backtracking
until the trailing word-boundary anchor holds. -/

/-- ASCII word characters, the `\w` class used by the word-boundary test of
the Python regex, restricted to ASCII (every character of the pattern itself
is ASCII). -/
def isWordChar (c : Char) : Bool := c.isAlphanum || c == '_'

/-- Characters of the character class `[a-zA-Z0-9/]` of the source pattern. -/
def isClassChar (c : Char) : Bool := c.isAlphanum || c == '/'

/-- The literal head `http://xhslink.com/` of the source pattern. -/
def xhsLit : List Char := "http://xhslink.com/".data

/-- Whether an optional following character is a word character; the end of
the input counts as a non-word position for the boundary test. -/
def nextWord : Option Char → Bool
  | some c => isWordChar c
  | none => false

/-- Acceptance of a candidate body of length `k` after the literal head:
all `k` characters lie in the character class and the word-boundary anchor
`\b` holds between the last matched character and the following character. -/
def bodyOk (t : List Char) (k : Nat) : Bool :=
  (t.take k).all isClassChar &&
    match t.drop (k - 1) with
    | prev :: rest => isWordChar prev != nextWord rest.head?
    | [] => false

/-- Greedy backtracking of the `+` quantifier: try the longest body first
and shorten until the boundary holds, exactly as the regex engine does. -/
def tryLens (t : List Char) : Nat → Option Nat
  | 0 => none
  | k + 1 => if bodyOk t (k + 1) = true then some (k + 1) else tryLens t k

/-- Attempt to match the pattern at the start of `s`. -/
def matchAt (s : List Char) : Option (List Char) :=
  if xhsLit.isPrefixOf s then
    (tryLens (s.drop xhsLit.length) (s.drop xhsLit.length).length).map
      (fun k => xhsLit ++ (s.drop xhsLit.length).take k)
  else none

/-- Leftmost match of the pattern, scanning start positions left to right as
`re.findall` does; the head of the findall result is the first match. -/
def firstMatch : List Char → Option (List Char)
  | [] => none
  | c :: rest =>
    match matchAt (c :: rest) with
    | some l => some l
    | none => firstMatch rest

/-- Embedding of `RedbookScraper.extract_url`: first match of the pattern in
the share text, or `None`. -/
def extract_url (text : String) : Option String :=
  (firstMatch text.data).map List.asString

/-- Declarative match predicate: the pattern matches at the start of `s`
consuming the literal head plus `k ≥ 1` class characters, with the
word-boundary anchor satisfied after them. -/
def matches0 (s : List Char) (k : Nat) : Bool :=
  decide (0 < k) && xhsLit.isPrefixOf s && bodyOk (s.drop xhsLit.length) k

/-- Python substring containment (the `in` operator on `str`). -/
def containsSeq (hay : List Char) (needle : List Char) : Bool :=
  match hay with
  | [] => needle.isEmpty
  | _ :: rest => needle.isPrefixOf hay || containsSeq rest needle

/-- The marker `xhslink.com` checked by the call sites before running the
regular expression. -/
def markerChars : List Char := "xhslink.com".data

/-- Embedding of the link-resolution step of `extract_content`
(`redbook_api.py` lines 112-115) and of `main` (`redbook_scraper.py` lines
127-131): run `extract_url` when the marker occurs in the text, otherwise
keep the text; a `None` result or an empty string is rejected by the Python
truthiness test `if not url`. -/
def resolveUrl (text : String) : Option String :=
  let url := if containsSeq text.data markerChars then extract_url text else some text
  match url with
  | none => none
  | some u => if u = "" then none else some u

/-! ### Lemmas about the matcher -/

theorem bodyOk_nil (k : Nat) : bodyOk [] k = false := by
  simp [bodyOk]

theorem matches0_nil (k : Nat) : matches0 [] k = false := by
  simp [matches0, bodyOk_nil]

theorem bodyOk_le {t : List Char} {k : Nat} (h : bodyOk t k = true) (hk : 0 < k) :
    k ≤ t.length := by
  unfold bodyOk at h
  rcases hd : t.drop (k - 1) with _ | ⟨p, r⟩
  · rw [hd] at h
    simp at h
  · by_contra hlt
    have hle : t.length ≤ k - 1 := by omega
    rw [List.drop_eq_nil_iff.mpr hle] at hd
    cases hd

theorem bodyOk_big {t : List Char} {k : Nat} (h : t.length < k) : bodyOk t k = false := by
  unfold bodyOk
  have hle : t.length ≤ k - 1 := by omega
  rw [List.drop_eq_nil_iff.mpr hle]
  simp

theorem tryLens_none {t : List Char} :
    ∀ n, tryLens t n = none → ∀ j, 0 < j → j ≤ n → bodyOk t j = false := by
  intro n
  induction n with
  | zero => intro _ j hj hjn; omega
  | succ m ih =>
    intro h j hj hjn
    rw [tryLens] at h
    by_cases hb : bodyOk t (m + 1) = true
    · rw [if_pos hb] at h; cases h
    · rw [if_neg hb] at h
      rcases Nat.lt_or_ge j (m + 1) with h1 | h1
      · exact ih h j hj (by omega)
      · have hj1 : j = m + 1 := by omega
        subst hj1
        cases hv : bodyOk t (m + 1)
        · rfl
        · exact absurd hv hb

theorem tryLens_some {t : List Char} :
    ∀ n k, tryLens t n = some k →
      0 < k ∧ k ≤ n ∧ bodyOk t k = true ∧ ∀ j, k < j → j ≤ n → bodyOk t j = false := by
  intro n
  induction n with
  | zero => intro k h; cases h
  | succ m ih =>
    intro k h
    rw [tryLens] at h
    by_cases hb : bodyOk t (m + 1) = true
    · rw [if_pos hb] at h
      have hk : m + 1 = k := by injection h
      subst hk
      exact ⟨by omega, Nat.le_refl _, hb, fun j hj hjm => by omega⟩
    · rw [if_neg hb] at h
      obtain ⟨hk0, hkm, hbk, hall⟩ := ih k h
      refine ⟨hk0, by omega, hbk, fun j hj hjm => ?_⟩
      rcases Nat.lt_or_ge j (m + 1) with h1 | h1
      · exact hall j hj (by omega)
      · have hj1 : j = m + 1 := by omega
        subst hj1
        cases hv : bodyOk t (m + 1)
        · rfl
        · exact absurd hv hb

theorem matchAt_none {s : List Char} (h : matchAt s = none) :
    ∀ k, matches0 s k = false := by
  intro k
  unfold matchAt at h
  by_cases hp : xhsLit.isPrefixOf s
  · rw [if_pos hp] at h
    rcases ht : tryLens (s.drop xhsLit.length) (s.drop xhsLit.length).length with _ | k2
    · rcases Nat.eq_zero_or_pos k with hk | hk
      · subst hk; simp [matches0]
      · rcases Nat.lt_or_ge (s.drop xhsLit.length).length k with h1 | h1
        · simp [matches0, bodyOk_big h1]
        · have := tryLens_none _ ht k hk h1
          simp [matches0, this]
    · rw [ht] at h
      cases h
  · cases hv : matches0 s k
    · rfl
    · unfold matches0 at hv
      simp only [Bool.and_eq_true] at hv
      exact absurd hv.1.2 hp

theorem matchAt_some {s : List Char} {l : List Char} (h : matchAt s = some l) :
    ∃ k, matches0 s k = true ∧ l = xhsLit ++ (s.drop xhsLit.length).take k ∧
      ∀ j, k < j → matches0 s j = false := by
  unfold matchAt at h
  by_cases hp : xhsLit.isPrefixOf s
  · rw [if_pos hp] at h
    rcases ht : tryLens (s.drop xhsLit.length) (s.drop xhsLit.length).length with _ | k
    · rw [ht] at h; cases h
    · rw [ht] at h
      obtain ⟨hk0, hkm, hbk, hall⟩ := tryLens_some _ k ht
      have hl : l = xhsLit ++ (s.drop xhsLit.length).take k := by
        injection h with h2
        exact h2.symm
      refine ⟨k, ?_, hl, fun j hj => ?_⟩
      · simp [matches0, hk0, hp, hbk]
      · rcases Nat.lt_or_ge (s.drop xhsLit.length).length j with h1 | h1
        · simp [matches0, bodyOk_big h1]
        · simp [matches0, hall j hj h1]
  · rw [if_neg hp] at h
    cases h

theorem firstMatch_none :
    ∀ s : List Char, firstMatch s = none → ∀ i k, matches0 (s.drop i) k = false := by
  intro s
  induction s with
  | nil =>
    intro _ i k
    rw [List.drop_nil]
    exact matches0_nil k
  | cons c rest ih =>
    intro h i k
    rw [firstMatch] at h
    rcases hma : matchAt (c :: rest) with _ | l
    · rw [hma] at h
      cases i with
      | zero => exact matchAt_none hma k
      | succ i2 =>
        rw [List.drop_succ_cons]
        exact ih h i2 k
    · rw [hma] at h
      cases h

theorem firstMatch_some :
    ∀ (s : List Char) (l : List Char), firstMatch s = some l →
      ∃ i k, matches0 (s.drop i) k = true ∧
        l = xhsLit ++ ((s.drop i).drop xhsLit.length).take k ∧
        (∀ j k2, j < i → matches0 (s.drop j) k2 = false) ∧
        (∀ k2, k < k2 → matches0 (s.drop i) k2 = false) := by
  intro s
  induction s with
  | nil => intro l h; cases h
  | cons c rest ih =>
    intro l h
    rw [firstMatch] at h
    rcases hma : matchAt (c :: rest) with _ | l2
    · rw [hma] at h
      obtain ⟨i, k, hm, hl, hbefore, hmax⟩ := ih l h
      refine ⟨i + 1, k, ?_, ?_, ?_, ?_⟩
      · rw [List.drop_succ_cons]; exact hm
      · rw [List.drop_succ_cons]; exact hl
      · intro j k2 hj
        cases j with
        | zero => exact matchAt_none hma k2
        | succ j2 =>
          rw [List.drop_succ_cons]
          exact hbefore j2 k2 (by omega)
      · intro k2 hk2
        rw [List.drop_succ_cons]
        exact hmax k2 hk2
    · rw [hma] at h
      have hl : l2 = l := by injection h
      subst hl
      obtain ⟨k, hm, hl, hmax⟩ := matchAt_some hma
      exact ⟨0, k, by simpa using hm, by simpa using hl,
        fun j k2 hj => by omega, fun k2 hk2 => by simpa using hmax k2 hk2⟩

theorem take_len_append (p t : List Char) (k : Nat) :
    (p ++ t).take (p.length + k) = p ++ t.take k := by
  induction p with
  | nil => simp
  | cons c cs ih =>
    have : (c :: cs).length + k = (cs.length + k) + 1 := by
      simp [List.length_cons]; omega
    rw [this, List.cons_append, List.take_succ_cons, ih, List.cons_append]

theorem matches0_take {s : List Char} {k : Nat} (hp : xhsLit.isPrefixOf s) :
    xhsLit ++ (s.drop xhsLit.length).take k = s.take (xhsLit.length + k) := by
  obtain ⟨t, rfl⟩ : ∃ t, s = xhsLit ++ t := by
    have := List.isPrefixOf_iff_prefix.mp hp
    obtain ⟨t, ht⟩ := this
    exact ⟨t, ht.symm⟩
  rw [List.drop_left, take_len_append]

theorem matches0_isPrefix {s : List Char} {k : Nat} (h : matches0 s k = true) :
    xhsLit.isPrefixOf s = true := by
  unfold matches0 at h
  simp only [Bool.and_eq_true] at h
  exact h.1.2

theorem matchAt_shape {s l : List Char} (h : matchAt s = some l) : l ≠ [] := by
  obtain ⟨k, _, hl, _⟩ := matchAt_some h
  subst hl
  intro hc
  have h1 : xhsLit = [] := (List.append_eq_nil.mp hc).1
  exact absurd h1 (by decide)

theorem firstMatch_shape : ∀ s l, firstMatch s = some l → l ≠ [] := by
  intro s
  induction s with
  | nil => intro l h; cases h
  | cons c rest ih =>
    intro l h
    rw [firstMatch] at h
    rcases hma : matchAt (c :: rest) with _ | l2
    · rw [hma] at h
      exact ih l h
    · rw [hma] at h
      have hll : l2 = l := by injection h
      subst hll
      exact matchAt_shape hma

theorem extract_url_eq {text : String} {l : List Char}
    (hf : firstMatch text.data = some l) : extract_url text = some l.asString := by
  rw [extract_url, hf]
  rfl

/-! ## Claim theorems for the link resolver -/

/-- C1: for input text containing the marker `xhslink.com` and at least one
substring matching `http://xhslink.com/[a-zA-Z0-9/]+\b`, `extract_url`
returns exactly the first such matching substring of the input, verbatim:
the match at the leftmost matching position, of the greatest matching length
there (the greedy match the regex engine selects). -/
theorem c1_extract_url_first_match (text : String) (i k : Nat)
    (_hmarker : containsSeq text.data markerChars = true)
    (hm : matches0 (text.data.drop i) k = true) :
    ∃ i0 k0,
      matches0 (text.data.drop i0) k0 = true ∧
      (∀ j k2, j < i0 → matches0 (text.data.drop j) k2 = false) ∧
      (∀ k2, k0 < k2 → matches0 (text.data.drop i0) k2 = false) ∧
      extract_url text = some (((text.data.drop i0).take (xhsLit.length + k0)).asString) := by
  rcases hf : firstMatch text.data with _ | l
  · exact absurd hm (by simp [firstMatch_none _ hf i k])
  · obtain ⟨i0, k0, hm0, hl, hbefore, hmax⟩ := firstMatch_some _ l hf
    refine ⟨i0, k0, hm0, hbefore, hmax, ?_⟩
    rw [extract_url_eq hf, hl, matches0_take (matches0_isPrefix hm0)]

/-- Witness for C1 at a concrete share text: the pattern matches at position
4 with body length 4, and the resolver returns the leftmost greedy match. -/
theorem c1_witness :
    ∃ i0 k0,
      matches0 (("see http://xhslink.com/aB3x ok".data).drop i0) k0 = true ∧
      (∀ j k2, j < i0 → matches0 (("see http://xhslink.com/aB3x ok".data).drop j) k2 = false) ∧
      (∀ k2, k0 < k2 → matches0 (("see http://xhslink.com/aB3x ok".data).drop i0) k2 = false) ∧
      extract_url "see http://xhslink.com/aB3x ok" =
        some ((("see http://xhslink.com/aB3x ok".data).drop i0).take (xhsLit.length + k0)).asString :=
  c1_extract_url_first_match "see http://xhslink.com/aB3x ok" 4 4 (by decide) (by decide)

/-- C2 counterexample: the empty string contains no marker, yet the link
resolution step yields `none` (the Python code rejects it through the
truthiness test `if not url`), not the input unchanged. -/
theorem c2_counterexample :
    containsSeq ("" : String).data markerChars = false ∧ resolveUrl "" ≠ some "" := by
  decide

/-- C2 amended: for every non-empty input text that does not contain the
marker `xhslink.com`, the link resolution step returns the input text
unchanged, treating it as the URL to fetch. -/
theorem c2_resolve_no_marker (text : String) (hne : text ≠ "")
    (hm : containsSeq text.data markerChars = false) :
    resolveUrl text = some text := by
  unfold resolveUrl
  rw [hm]
  simp [hne]

/-- Witness for the amended C2 at a direct URL input. -/
theorem c2_witness : resolveUrl "https://www.xiaohongshu.com/explore/abc" =
    some "https://www.xiaohongshu.com/explore/abc" :=
  c2_resolve_no_marker "https://www.xiaohongshu.com/explore/abc" (by decide) (by decide)

/-- C3: the link resolution step yields `none` (reported as no valid URL by
the callers) exactly when the text contains the marker but no substring
matches the short-link pattern, or the text is the empty string. -/
theorem c3_resolve_none_iff (text : String) :
    resolveUrl text = none ↔
      ((containsSeq text.data markerChars = true ∧
        ∀ i k, matches0 (text.data.drop i) k = false) ∨ text = "") := by
  constructor
  · intro h
    unfold resolveUrl at h
    by_cases hmk : containsSeq text.data markerChars = true
    · rw [hmk] at h
      simp only [if_true] at h
      left
      refine ⟨hmk, ?_⟩
      rcases hf : firstMatch text.data with _ | l
      · exact firstMatch_none _ hf
      · exfalso
        rw [extract_url_eq hf] at h
        have hne : l ≠ [] := firstMatch_shape _ l hf
        by_cases hemp : l.asString = ""
        · have : l = [] := by
            have := congrArg String.data hemp
            simpa using this
          exact hne this
        · have h2 : (if l.asString = "" then (none : Option String) else some l.asString) = none := h
          rw [if_neg hemp] at h2
          cases h2
    · have hmF : containsSeq text.data markerChars = false := by
        cases hv : containsSeq text.data markerChars
        · rfl
        · exact absurd hv hmk
      rw [hmF] at h
      simp only [Bool.false_eq_true, if_false] at h
      by_cases hemp : text = ""
      · right; exact hemp
      · rw [if_neg hemp] at h
        cases h
  · intro h
    rcases h with ⟨hmk, hall⟩ | hemp
    · unfold resolveUrl
      rw [hmk]
      simp only [if_true]
      rcases hf : firstMatch text.data with _ | l
      · rw [extract_url, hf]
        rfl
      · exfalso
        obtain ⟨i, k, hm, _, _, _⟩ := firstMatch_some _ l hf
        simp [hall i k] at hm
    · subst hemp
      decide

/-! ## HTML model and the content extractor (`RedbookScraper.get_content`)

The parsed page is a forest of nodes (elements with an attribute list and
children, and text nodes), the document-order tree BeautifulSoup builds with
`html.parser`.  `soup.find(tag, attrs)` returns the first element of the
document-order (pre-order) traversal whose tag matches and whose attribute
of the given name equals the given value; `find_all` returns all of them in
that order.  Attribute access `tag[k]` and the test `k in tag.attrs` are a
first-occurrence lookup in the attribute list. -/

inductive HNode where
  | elem (tag : String) (attrs : List (String × String)) (children : List HNode)
  | textNode (s : String)

mutual
/-- Document-order (pre-order) listing of the elements of a subtree. -/
def elemsOf : HNode → List HNode
  | .textNode _ => []
  | .elem t a cs => HNode.elem t a cs :: elemsForest cs
/-- Document-order (pre-order) listing of the elements of a forest. -/
def elemsForest : List HNode → List HNode
  | [] => []
  | n :: ns => elemsOf n ++ elemsForest ns
end

mutual
/-- Text strings of a subtree in document order (the strings `get_text`
concatenates). -/
def textsOf : HNode → List String
  | .textNode s => [s]
  | .elem _ _ cs => textsForest cs
/-- Text strings of a forest in document order. -/
def textsForest : List HNode → List String
  | [] => []
  | n :: ns => textsOf n ++ textsForest ns
end

/-- BeautifulSoup `soup.find(...)`: first element in document order
satisfying the predicate. -/
def findElem (p : HNode → Bool) (doc : List HNode) : Option HNode :=
  (elemsForest doc).find? p

/-- BeautifulSoup `soup.find_all(...)`: all elements in document order
satisfying the predicate. -/
def findAllElems (p : HNode → Bool) (doc : List HNode) : List HNode :=
  (elemsForest doc).filter p

/-- Attribute lookup `tag[name]` / `name in tag.attrs` (first occurrence,
as `html.parser` keeps the first of duplicated attributes). -/
def getAttr (a : String) : HNode → Option String
  | .elem _ attrs _ => attrs.lookup a
  | .textNode _ => none

/-- Matcher for `soup.find('meta', {'name': 'og:title'})`. -/
def isTitleMeta : HNode → Bool
  | .elem tag attrs _ => tag == "meta" && attrs.lookup "name" == some "og:title"
  | .textNode _ => false

/-- Matcher for `soup.find_all('meta', {'name': 'og:image'})`. -/
def isImageMeta : HNode → Bool
  | .elem tag attrs _ => tag == "meta" && attrs.lookup "name" == some "og:image"
  | .textNode _ => false

/-- Matcher for `soup.find('div', {'id': 'detail-desc'})`. -/
def isDetailDesc : HNode → Bool
  | .elem tag attrs _ => tag == "div" && attrs.lookup "id" == some "detail-desc"
  | .textNode _ => false

/-- ASCII whitespace stripped by Python `str.strip()` (Python also strips a
few Unicode space characters, which the claims never involve). -/
def isPySpace (c : Char) : Bool :=
  c == ' ' || c == '\t' || c == '\n' || c == '\r' || c == '\x0b' || c == '\x0c'

/-- Python `str.strip()` on a character list. -/
def stripChars (l : List Char) : List Char :=
  ((l.dropWhile isPySpace).reverse.dropWhile isPySpace).reverse

/-- BeautifulSoup `tag.get_text(strip=True)`: each text string of the
subtree is stripped and the results are concatenated (the default separator
is the empty string, so strings that strip to nothing contribute nothing). -/
def getTextStrip (n : HNode) : String :=
  String.join ((textsOf n).map fun s => (stripChars s.data).asString)

/-- The branding substring `' - 小红书'` removed from titles. -/
def brand : List Char := " - 小红书".data

/-- Python `s.replace(pat, '')`: remove every occurrence of `pat`, scanning
left to right and continuing after each removed occurrence.  The fuel
argument (initially the length of the string) only serves termination; one
list element is consumed per step, so it never runs out.  The source only
uses a fixed non-empty pattern. -/
def replAux (pat : List Char) : Nat → List Char → List Char
  | _, [] => []
  | 0, s => s
  | fuel + 1, c :: rest =>
    if pat.isPrefixOf (c :: rest) && !pat.isEmpty then
      replAux pat fuel (rest.drop (pat.length - 1))
    else
      c :: replAux pat fuel rest

/-- Remove every occurrence of `pat` from `s` (Python `s.replace(pat, '')`). -/
def removeAll (pat s : List Char) : List Char :=
  replAux pat s.length s

/-- The record `get_content` returns (the response model `RedbookContent`):
title, body text, image URLs, fetched URL, and the optional local image
paths added by the persistence step. -/
structure RContent where
  title : String
  content : String
  images : List String
  url : String
  local_images : Option (List String) := none
deriving DecidableEq

/-- Body-text step of `get_content`: the `detail-desc` element's stripped
text, or the sentinel. -/
def contentText (doc : List HNode) : String :=
  match findElem isDetailDesc doc with
  | some d => getTextStrip d
  | none => "正文未找到"

/-- Image step of `get_content`: iterate the `og:image` metas in document
order, appending the content value of each one that has a `content`
attribute (`if 'content' in img_meta.attrs`). -/
def imagesOf (doc : List HNode) : List String :=
  (findAllElems isImageMeta doc).foldl
    (fun acc m =>
      match getAttr "content" m with
      | some v => acc ++ [v]
      | none => acc)
    []

/-- Parsing portion of `RedbookScraper.get_content` on an already fetched
and parsed document.  The title step evaluates `title_meta['content']`,
which raises `KeyError` when the found meta has no `content` attribute; the
surrounding `except Exception` turns that into the HTTP 500 parse error.
All other steps are total. -/
def get_content_parse (doc : List HNode) (url : String) : Except Nat RContent :=
  match findElem isTitleMeta doc with
  | some m =>
    match getAttr "content" m with
    | some v =>
      .ok { title := (removeAll brand v.data).asString
          , content := contentText doc
          , images := imagesOf doc
          , url := url }
    | none => .error 500
  | none =>
    .ok { title := "标题未找到"
        , content := contentText doc
        , images := imagesOf doc
        , url := url }

/-- Embedding of `RedbookScraper.get_content` (`redbook_api.py` /
`api/index.py` variant): the network GET together with `raise_for_status`
and the HTML parse is an oracle returning the parsed document or a failure
message; `requests.RequestException` (connection failure or non-2xx status)
becomes the HTTP 400 error, and the parse exception becomes 500. -/
def get_content (fetch : String → Except String (List HNode)) (url : String) :
    Except Nat RContent :=
  match fetch url with
  | .error _ => .error 400
  | .ok doc => get_content_parse doc url

/-! ### Lemmas about the extractor -/

theorem parse_find_none {doc : List HNode} {url : String}
    (hf : findElem isTitleMeta doc = none) :
    get_content_parse doc url =
      Except.ok { title := "标题未找到", content := contentText doc
                , images := imagesOf doc, url := url } := by
  simp only [get_content_parse, hf]

theorem parse_find_some {doc : List HNode} {url : String} {m : HNode} {v : String}
    (hf : findElem isTitleMeta doc = some m) (ha : getAttr "content" m = some v) :
    get_content_parse doc url =
      Except.ok { title := (removeAll brand v.data).asString, content := contentText doc
                , images := imagesOf doc, url := url } := by
  simp only [get_content_parse, hf, ha]

theorem parse_find_keyerr {doc : List HNode} {url : String} {m : HNode}
    (hf : findElem isTitleMeta doc = some m) (ha : getAttr "content" m = none) :
    get_content_parse doc url = Except.error 500 := by
  simp only [get_content_parse, hf, ha]

theorem parse_ok_inv {doc : List HNode} {url : String} {r : RContent}
    (h : get_content_parse doc url = Except.ok r) :
    r.content = contentText doc ∧ r.images = imagesOf doc ∧
      r.url = url ∧ r.local_images = none := by
  rcases hf : findElem isTitleMeta doc with _ | m
  · rw [parse_find_none hf] at h
    have hr := (Except.ok.inj h).symm
    subst hr
    exact ⟨rfl, rfl, rfl, rfl⟩
  · rcases ha : getAttr "content" m with _ | v
    · rw [parse_find_keyerr hf ha] at h
      cases h
    · rw [parse_find_some hf ha] at h
      have hr := (Except.ok.inj h).symm
      subst hr
      exact ⟨rfl, rfl, rfl, rfl⟩

theorem containsSeq_cons_false {c : Char} {rest pat : List Char}
    (h : containsSeq (c :: rest) pat = false) :
    pat.isPrefixOf (c :: rest) = false ∧ containsSeq rest pat = false := by
  rw [containsSeq] at h
  exact ⟨(Bool.or_eq_false_iff.mp h).1, (Bool.or_eq_false_iff.mp h).2⟩

theorem replAux_id {pat : List Char} :
    ∀ (s : List Char) (fuel : Nat), s.length ≤ fuel → containsSeq s pat = false →
      replAux pat fuel s = s := by
  intro s
  induction s with
  | nil =>
    intro fuel _ _
    cases fuel <;> rfl
  | cons c rest ih =>
    intro fuel hlen hnc
    obtain ⟨hpre, hrest⟩ := containsSeq_cons_false hnc
    cases fuel with
    | zero => simp at hlen
    | succ f =>
      rw [replAux, hpre]
      simp only [Bool.false_and, Bool.false_eq_true, if_false]
      rw [ih f (by simpa using Nat.lt_succ_iff.mp (Nat.lt_of_lt_of_le (Nat.lt_succ_self _) (by simpa using hlen))) hrest]

theorem removeAll_id {pat s : List Char} (h : containsSeq s pat = false) :
    removeAll pat s = s :=
  replAux_id s s.length (Nat.le_refl _) h

/-! ## Claim theorems for the extractor -/

/-- Concrete document for the C4 counterexample: an `og:title` meta element
without a `content` attribute and no `detail-desc` element. -/
def c4doc : List HNode := [HNode.elem "meta" [("name", "og:title")] []]

/-- C4 counterexample: this document lacks the element with id
`detail-desc`, yet `get_content` raises (`title_meta['content']` is a
`KeyError`, reported as the 500 parse error) instead of returning the
sentinel body string. -/
theorem c4_counterexample :
    ((elemsForest c4doc).all fun n => !isDetailDesc n) = true ∧
    get_content_parse c4doc "https://example.com" = Except.error 500 :=
  ⟨rfl, rfl⟩

/-- C4 amended: for every document lacking a meta element with name
`og:title`, `get_content` returns the sentinel title and does not throw;
and for every document lacking the element with id `detail-desc`, whenever
`get_content` returns a record at all (the title step can still raise a
`KeyError` when an `og:title` meta has no `content` attribute), the body is
the sentinel string. -/
theorem c4_missing_elements_sentinels (doc : List HNode) (url : String) :
    ((∀ n ∈ elemsForest doc, isTitleMeta n = false) →
      ∃ r, get_content_parse doc url = Except.ok r ∧ r.title = "标题未找到") ∧
    ((∀ n ∈ elemsForest doc, isDetailDesc n = false) →
      ∀ r, get_content_parse doc url = Except.ok r → r.content = "正文未找到") := by
  constructor
  · intro h
    have hf : findElem isTitleMeta doc = none := by
      rw [findElem]
      exact List.find?_eq_none.mpr fun x hx => by simp [h x hx]
    exact ⟨_, parse_find_none hf, rfl⟩
  · intro h r hr
    have hf : findElem isDetailDesc doc = none := by
      rw [findElem]
      exact List.find?_eq_none.mpr fun x hx => by simp [h x hx]
    rw [(parse_ok_inv hr).1]
    simp [contentText, hf]

/-- Witness for the amended C4 at the empty document. -/
theorem c4_witness :
    (∃ r, get_content_parse ([] : List HNode) "u" = Except.ok r ∧ r.title = "标题未找到") ∧
    (∀ r, get_content_parse ([] : List HNode) "u" = Except.ok r → r.content = "正文未找到") :=
  ⟨(c4_missing_elements_sentinels [] "u").1 (by intro n hn; simp [elemsForest] at hn),
   (c4_missing_elements_sentinels [] "u").2 (by intro n hn; simp [elemsForest] at hn)⟩

/-- Concrete document for the C5 counterexample: a title whose content value
contains the branding string mid-title, not as a trailing suffix. -/
def c5doc : List HNode :=
  [HNode.elem "meta" [("name", "og:title"), ("content", "A - 小红书B")] []]

/-- C5 counterexample: the content value `A - 小红书B` does not end with the
branding string (it only contains it mid-title), yet the extractor returns
`AB`, not the value with all other characters intact — Python `str.replace`
removes every occurrence, not only a trailing suffix. -/
theorem c5_counterexample :
    get_content_parse c5doc "u" =
      Except.ok { title := "AB", content := "正文未找到", images := [], url := "u" } ∧
    containsSeq ("A - 小红书B" : String).data brand = true ∧
    List.isSuffixOf brand ("A - 小红书B" : String).data = false ∧
    ("AB" : String) ≠ "A - 小红书B" :=
  ⟨rfl, rfl, rfl, by decide⟩

/-- C5 amended: when the title metadata element is found with a content
value, the extractor removes every occurrence of the branding string
`' - 小红书'` from the value (Python `str.replace`), and a title containing
no occurrence at all is returned with all characters intact. -/
theorem c5_title_replace (doc : List HNode) (url : String) (m : HNode) (v : String)
    (hf : findElem isTitleMeta doc = some m) (ha : getAttr "content" m = some v) :
    ∃ r, get_content_parse doc url = Except.ok r ∧
      r.title = (removeAll brand v.data).asString ∧
      (containsSeq v.data brand = false → r.title = v) := by
  refine ⟨_, parse_find_some hf ha, rfl, ?_⟩
  intro hnc
  show (removeAll brand v.data).asString = v
  rw [removeAll_id hnc]
  rfl

/-- Concrete document for the C5 witness: the branding string occurs as a
trailing suffix and is removed. -/
def c5wdoc : List HNode :=
  [HNode.elem "meta" [("name", "og:title"), ("content", "My Note - 小红书")] []]

/-- Witness for the amended C5: the suffixed example title comes back with
the branding removed. -/
theorem c5_witness : ∃ r, get_content_parse c5wdoc "u" = Except.ok r ∧ r.title = "My Note" := by
  obtain ⟨r, hr, ht, _⟩ :=
    c5_title_replace c5wdoc "u"
      (HNode.elem "meta" [("name", "og:title"), ("content", "My Note - 小红书")] [])
      "My Note - 小红书" rfl rfl
  exact ⟨r, hr, by rw [ht]; rfl⟩

theorem foldl_attr (l : List HNode) :
    ∀ init : List String,
      l.foldl
        (fun acc m =>
          match getAttr "content" m with
          | some v => acc ++ [v]
          | none => acc)
        init
      = init ++ l.filterMap (getAttr "content") := by
  induction l with
  | nil => intro init; simp
  | cons n ns ih =>
    intro init
    rw [List.foldl_cons, List.filterMap_cons]
    rcases h : getAttr "content" n with _ | v
    · simp only [h]
      exact ih init
    · simp only [h]
      rw [ih (init ++ [v]), List.append_assoc]
      rfl

/-- C6: whenever `get_content` returns a record, its image list equals, in
document order, the content values of exactly those `og:image` meta
elements that possess a `content` attribute; elements without one are
skipped and contribute no entry. -/
theorem c6_images (doc : List HNode) (url : String) (r : RContent)
    (h : get_content_parse doc url = Except.ok r) :
    r.images = ((elemsForest doc).filter isImageMeta).filterMap (getAttr "content") := by
  rw [(parse_ok_inv h).2.1]
  unfold imagesOf findAllElems
  rw [foldl_attr]
  rfl

/-- Concrete document for the C6 witness: three `og:image` metas, the middle
one without a `content` attribute. -/
def c6doc : List HNode :=
  [HNode.elem "meta" [("name", "og:image"), ("content", "a")] [],
   HNode.elem "meta" [("name", "og:image")] [],
   HNode.elem "meta" [("name", "og:image"), ("content", "b")] []]

/-- Witness for C6: the attribute-less meta contributes nothing, and order
is preserved. -/
theorem c6_witness :
    ({ title := "标题未找到", content := "正文未找到", images := ["a", "b"], url := "u" } : RContent).images
      = ((elemsForest c6doc).filter isImageMeta).filterMap (getAttr "content") :=
  c6_images c6doc "u" _ rfl

/-! ## Directory-name sanitization

The source computes
`safe_title = "".join(x for x in title if x.isalnum() or x in (' ', '-', '_'))`
and then truncates it, to 30 characters in the HTTP service
(`redbook_api.py` line 127) and to 50 in the CLI (`redbook_scraper.py` line
98).  `Char.isAlphanum` is the ASCII restriction of Python `str.isalnum`
(they agree on ASCII; the claims only involve ASCII titles). -/

/-- Characters kept by the sanitizer. -/
def keepChar (c : Char) : Bool := c.isAlphanum || c == ' ' || c == '-' || c == '_'

/-- Embedding of the `"".join(...)` accumulation over the title characters. -/
def safeTitle (t : String) : String :=
  t.data.foldl (fun acc c => if keepChar c then acc.push c else acc) ""

/-- Folder name built by the HTTP service:
`f"redbook_content_{timestamp}_{safe_title[:30]}"` (slicing is by
characters). -/
def apiFolderName (timestamp title : String) : String :=
  "redbook_content_" ++ timestamp ++ "_" ++ ((safeTitle title).data.take 30).asString

/-- Folder name built by the CLI: `os.path.join(base_folder, safe_title[:50])`. -/
def cliFolderName (base title : String) : String :=
  base ++ "/" ++ ((safeTitle title).data.take 50).asString

theorem data_push (s : String) (c : Char) : (s.push c).data = s.data ++ [c] := rfl

theorem safeTitle_data_aux :
    ∀ (l : List Char) (acc : String),
      (l.foldl (fun a c => if keepChar c then a.push c else a) acc).data
        = acc.data ++ l.filter keepChar := by
  intro l
  induction l with
  | nil => intro acc; simp
  | cons c cs ih =>
    intro acc
    rw [List.foldl_cons, List.filter_cons]
    by_cases h : keepChar c = true
    · rw [if_pos h, if_pos h, ih, data_push, List.append_assoc]
      rfl
    · rw [if_neg h, if_neg h, ih]

/-- C8: the sanitizer keeps exactly the alphanumeric characters, spaces,
hyphens and underscores of the title, in order; the HTTP service truncates
the result to 30 characters and the CLI to 50; and in particular the title
`Hello! @World #1` sanitizes to `Hello World 1`. -/
theorem c8_sanitize :
    (∀ t : String, (safeTitle t).data = t.data.filter keepChar) ∧
    (∀ ts t : String, apiFolderName ts t =
      "redbook_content_" ++ ts ++ "_" ++ ((t.data.filter keepChar).take 30).asString) ∧
    (∀ b t : String, cliFolderName b t = b ++ "/" ++ ((t.data.filter keepChar).take 50).asString) ∧
    safeTitle "Hello! @World #1" = "Hello World 1" := by
  have h1 : ∀ t : String, (safeTitle t).data = t.data.filter keepChar := by
    intro t
    rw [safeTitle, safeTitle_data_aux]
    rfl
  refine ⟨h1, ?_, ?_, by decide⟩
  · intro ts t
    rw [apiFolderName, h1 t]
  · intro b t
    rw [cliFolderName, h1 t]

/-! ## Image persistence and the HTTP endpoint (`extract_content`)

Filesystem and network effects are made explicit: `dl i u` is the outcome
of `download_image(u, folder, i)` — `some filename` when the image GET
succeeded and the file was written, `none` when it failed with a network
error or non-2xx status (the `except` clause of `download_image` logs and
returns `None`).  The effects record lists the directories created by
`os.makedirs`, the image files written, and the `info.json` sidecar files
written together with the record they serialize. -/

structure Effects where
  dirs : List String
  imageFiles : List String
  sidecars : List (String × RContent)

/-- No filesystem effect. -/
def noEffects : Effects := ⟨[], [], []⟩

/-- The download loop of `extract_content` (`redbook_api.py` lines 130-135):
`for i, img_url in enumerate(result['images'], 1)` calls `download_image`
and appends `os.path.join(folder_name, filename)` only on success. -/
def runDownloads (dl : Nat → String → Option String) (folder : String) :
    List String → Nat → List String
  | [], _ => []
  | u :: us, i =>
    match dl i u with
    | some fn => (folder ++ "/" ++ fn) :: runDownloads dl folder us (i + 1)
    | none => runDownloads dl folder us (i + 1)

/-- Persistence block of `extract_content` (`redbook_api.py` lines 128-141):
create the directory, run the download loop, set `local_images` on the
record, and write the `info.json` sidecar holding the full updated record. -/
def persistStep (dl : Nat → String → Option String) (folder : String) (r : RContent) :
    RContent × Effects :=
  let downloaded := runDownloads dl folder r.images 1
  ({ r with local_images := some downloaded },
   { dirs := [folder]
   , imageFiles := downloaded
   , sidecars := [(folder ++ "/info.json", { r with local_images := some downloaded })] })

/-- Embedding of the `POST /api/extract` handler `extract_content`
(`redbook_api.py` lines 102-143): resolve the URL (400 when none), fetch
and parse (400 on fetch failure, 500 on the parse exception), and when
`save_images` holds and the image list is non-empty (`if request.save_images
and result['images']`), run the persistence block. -/
def extract_content (fetch : String → Except String (List HNode))
    (dl : Nat → String → Option String) (timestamp : String)
    (reqUrl : String) (save_images : Bool) :
    Except Nat RContent × Effects :=
  match resolveUrl reqUrl with
  | none => (.error 400, noEffects)
  | some url =>
    match get_content fetch url with
    | .error e => (.error e, noEffects)
    | .ok result =>
      if save_images && !result.images.isEmpty then
        let pe := persistStep dl (apiFolderName timestamp result.title) result
        (.ok pe.1, pe.2)
      else (.ok result, noEffects)

/-! ### Lemmas about the download loop -/

/-- Number of failing downloads in the loop. -/
def failCount (dl : Nat → String → Option String) : List String → Nat → Nat
  | [], _ => 0
  | u :: us, i =>
    (match dl i u with
     | none => 1
     | some _ => 0) + failCount dl us (i + 1)

theorem runDownloads_length (dl : Nat → String → Option String) (folder : String) :
    ∀ (us : List String) (i : Nat),
      (runDownloads dl folder us i).length + failCount dl us i = us.length := by
  intro us
  induction us with
  | nil => intro i; rfl
  | cons u us ih =>
    intro i
    rw [runDownloads, failCount]
    rcases h : dl i u with _ | fn
    · simp only [h]
      have := ih (i + 1)
      simp [this]
      omega
    · simp only [h]
      have := ih (i + 1)
      simp [this]
      omega

theorem failCount_eq_count {dl : Nat → String → Option String} {bad : String}
    (hfail : ∀ i u, dl i u = none ↔ u = bad) :
    ∀ (us : List String) (i : Nat), failCount dl us i = us.count bad := by
  intro us
  induction us with
  | nil => intro i; rfl
  | cons u us ih =>
    intro i
    rw [failCount]
    by_cases hu : u = bad
    · rw [(hfail i u).mpr hu]
      simp [List.count_cons, hu, ih (i + 1)]
      omega
    · rcases hv : dl i u with _ | fn
      · exact absurd ((hfail i u).mp hv) hu
      · simp [List.count_cons, hu, ih (i + 1)]

/-- C7: when exactly one of the image URLs fails to download (for instance
with HTTP 404) and every other URL succeeds, the loop skips the failure and
continues: `local_images` has exactly one entry fewer than the extracted
image list, and the `info.json` sidecar is still written with the full
updated record. -/
theorem c7_single_failure_skipped (dl : Nat → String → Option String) (folder : String)
    (r : RContent) (bad : String)
    (hfail : ∀ i u, dl i u = none ↔ u = bad)
    (hcount : r.images.count bad = 1) :
    ∃ l, (persistStep dl folder r).1.local_images = some l ∧
      l.length + 1 = r.images.length ∧
      (persistStep dl folder r).2.sidecars =
        [(folder ++ "/info.json", (persistStep dl folder r).1)] := by
  refine ⟨runDownloads dl folder r.images 1, rfl, ?_, rfl⟩
  have h1 := runDownloads_length dl folder r.images 1
  have h2 := failCount_eq_count hfail r.images 1
  omega

/-- Download oracle for the C7 witness: exactly the URL `bad` fails. -/
def c7dl : Nat → String → Option String :=
  fun _ u => if u = "bad" then none else some "image.jpg"

/-- Record for the C7 witness: three image URLs, the second one failing. -/
def c7r : RContent := { title := "t", content := "c", images := ["a", "bad", "b"], url := "u" }

/-- Witness for C7 with three images of which exactly one fails. -/
theorem c7_witness :
    ∃ l, (persistStep c7dl "f" c7r).1.local_images = some l ∧
      l.length + 1 = c7r.images.length ∧
      (persistStep c7dl "f" c7r).2.sidecars =
        [("f" ++ "/info.json", (persistStep c7dl "f" c7r).1)] :=
  c7_single_failure_skipped c7dl "f" c7r "bad"
    (by intro i u; by_cases h : u = "bad" <;> simp [c7dl, h])
    (by decide)

/-- C9: under a resolved URL, a page-fetch failure (network error or non-2xx
status, the `requests.RequestException` branch) makes the endpoint answer
the HTTP 400 error, and the parse exception (`title_meta['content']` raising
`KeyError`) makes it answer 500; in both cases no directory is created and
no file is written. -/
theorem c9_fetch_and_parse_errors (fetch : String → Except String (List HNode))
    (dl : Nat → String → Option String) (ts req url : String) (save : Bool)
    (hres : resolveUrl req = some url) :
    (∀ msg, fetch url = Except.error msg →
      extract_content fetch dl ts req save = (Except.error 400, noEffects)) ∧
    (∀ doc m, fetch url = Except.ok doc → findElem isTitleMeta doc = some m →
      getAttr "content" m = none →
      extract_content fetch dl ts req save = (Except.error 500, noEffects)) := by
  constructor
  · intro msg h
    simp only [extract_content, hres, get_content, h]
  · intro doc m hfetch hfind hattr
    simp only [extract_content, hres, get_content, hfetch, parse_find_keyerr hfind hattr]

/-- Fetch oracle for the C9 witness: the initial GET fails. -/
def fetchFail : String → Except String (List HNode) := fun _ => Except.error "boom"

/-- Download oracle that always fails (never reached in the witnesses). -/
def dlNone : Nat → String → Option String := fun _ _ => none

/-- Witness for C9: a failing fetch yields the 400 error and no effects. -/
theorem c9_witness :
    extract_content fetchFail dlNone "ts" "u" true = (Except.error 400, noEffects) :=
  (c9_fetch_and_parse_errors fetchFail dlNone "ts" "u" "u" true (by decide)).1 "boom" rfl

/-- C10: when `save_images` is requested but extraction yields an empty
image list, the persistence block is skipped entirely (the Python condition
`if request.save_images and result['images']` is falsy on an empty list):
no directory is created, no file is written, and `local_images` stays
`None`. -/
theorem c10_empty_images_skips_persistence (fetch : String → Except String (List HNode))
    (dl : Nat → String → Option String) (ts req url : String)
    (doc : List HNode) (r : RContent)
    (hres : resolveUrl req = some url) (hfetch : fetch url = Except.ok doc)
    (hparse : get_content_parse doc url = Except.ok r) (himg : r.images = []) :
    extract_content fetch dl ts req true = (Except.ok r, noEffects) ∧ r.local_images = none := by
  constructor
  · simp only [extract_content, hres, get_content, hfetch, hparse, himg]
    simp
  · exact (parse_ok_inv hparse).2.2.2

/-- Fetch oracle for the C10 witness: the page parses to an empty document,
so the extraction succeeds with no images. -/
def fetchEmpty : String → Except String (List HNode) := fun _ => Except.ok []

/-- Witness for C10 at a page without image metadata. -/
theorem c10_witness :
    extract_content fetchEmpty dlNone "ts" "u" true =
      (Except.ok { title := "标题未找到", content := "正文未找到", images := [], url := "u" },
        noEffects) ∧
    ({ title := "标题未找到", content := "正文未找到", images := [], url := "u" } : RContent).local_images
      = none :=
  c10_empty_images_skips_persistence fetchEmpty dlNone "ts" "u" "u" [] _ (by decide) rfl rfl rfl

end Redbook
